import Mathlib

/-!
Verification of the audio-server repository (server.py, client.py,
microphone-server.py) against its natural-language specification.

The Python sources are shallowly embedded: byte strings become `List Nat`
(each element < 256), Python `int(x)` on a nonnegative real product such as
`sample_rate * (silence_ms / 1000)` is embedded as exact natural division
(truncation toward zero, which for nonnegative values is the floor), and
wall-clock quantities are embedded as exact rationals `ℚ` (the Python code
computes them with floats; we reason about the intended real-number
arithmetic).
-/

/-! ## Server configuration (server.py, `__main__`, lines 259-312)

`argparse` guarantees `bits ∈ {8,16}` and `channels ∈ {1,2}`; the derived
values below are computed exactly as in lines 288-312 of server.py. -/

structure Config where
  sample_rate : Nat
  bits : Nat
  channels : Nat
  chunk_ms : Nat
  silence_ms : Nat
deriving Repr, DecidableEq

/-- server.py line 289: `args.bytes_per_sample = (args.bits // 8) * args.channels`. -/
def Config.bytes_per_sample (c : Config) : Nat :=
  (c.bits / 8) * c.channels

/-- server.py line 290: `args.chunk_size_samples = int(args.sample_rate * (args.chunk_ms / 1000))`. -/
def Config.chunk_size_samples (c : Config) : Nat :=
  c.sample_rate * c.chunk_ms / 1000

/-- server.py line 291: `args.chunk_size_bytes = args.chunk_size_samples * args.bytes_per_sample`. -/
def Config.chunk_size_bytes (c : Config) : Nat :=
  c.chunk_size_samples * c.bytes_per_sample

/-- server.py line 292: `args.silence_samples = int(args.sample_rate * (args.silence_ms / 1000))`. -/
def Config.silence_samples (c : Config) : Nat :=
  c.sample_rate * c.silence_ms / 1000

/-- server.py line 312: `args.bytes_per_sec = args.sample_rate * args.bytes_per_sample`. -/
def Config.bytes_per_sec (c : Config) : Nat :=
  c.sample_rate * c.bytes_per_sample

/-- server.py line 14: `DEFAULT_U8_SILENCE_BYTE_VALUE = 128`. -/
def DEFAULT_U8_SILENCE_BYTE_VALUE : Nat := 128

/-- Python `struct.pack('<h', v)`: a signed 16-bit value packed as two
little-endian bytes (two's complement). -/
def pack_s16_le (v : Int) : List Nat :=
  [((v % 65536).toNat) % 256, ((v % 65536).toNat) / 256]

/-- Python `bytes * n` repetition (used in server.py line 305). -/
def repBytes (n : Nat) (l : List Nat) : List Nat :=
  (List.replicate n l).flatten

/-- server.py lines 294-305: the silence buffer.
For 8-bit: `bytes([128] * (silence_samples * bytes_per_sample))`.
For 16-bit: `(struct.pack('<h', 0) * channels) * silence_samples`. -/
def Config.silence_bytes (c : Config) : List Nat :=
  if c.bits = 8 then
    List.replicate (c.silence_samples * c.bytes_per_sample)
      DEFAULT_U8_SILENCE_BYTE_VALUE
  else if c.bits = 16 then
    repBytes c.silence_samples (repBytes c.channels (pack_s16_le 0))
  else
    []

/-- The spec's formula for the silence sample count: `round(sample_rate *
silence_ms / 1000)`, round half up, over exact rationals.  Stated from the
spec's words, to be compared with `Config.silence_samples` from the code. -/
def spec_silence_samples_round (c : Config) : Nat :=
  (2 * c.sample_rate * c.silence_ms + 1000) / 2000

/-- client.py lines 88-91: `int.from_bytes(data[i:i+2], byteorder='little',
signed=True)` on a 2-byte group. -/
def decode_s16_le (b0 b1 : Nat) : Int :=
  let u : Nat := b0 + 256 * b1
  if u ≥ 32768 then (u : Int) - 65536 else (u : Int)

lemma pack_s16_le_zero : pack_s16_le 0 = [0, 0] := by
  simp [pack_s16_le]

lemma repBytes_length (n : Nat) (l : List Nat) :
    (repBytes n l).length = n * l.length := by
  induction n with
  | zero => simp [repBytes]
  | succ k ih =>
    rw [repBytes, List.replicate_succ, List.flatten_cons]
    rw [List.length_append]
    rw [repBytes] at ih
    rw [ih, Nat.succ_mul]
    omega

lemma silence_bytes_length_8 (c : Config) (h : c.bits = 8) :
    c.silence_bytes.length = c.silence_samples * c.bytes_per_sample := by
  simp [Config.silence_bytes, h]

lemma silence_bytes_length_16 (c : Config) (h : c.bits = 16) :
    c.silence_bytes.length = c.silence_samples * c.bytes_per_sample := by
  have h8 : c.bits ≠ 8 := by omega
  rw [Config.silence_bytes, if_neg h8, if_pos h, pack_s16_le_zero,
    repBytes_length, repBytes_length, Config.bytes_per_sample, h]
  have h2 : (16 : Nat) / 8 = 2 := rfl
  rw [h2]
  ring_nf
  simp

lemma silence_bytes_length (c : Config) (h : c.bits = 8 ∨ c.bits = 16) :
    c.silence_bytes.length = c.silence_samples * c.bytes_per_sample := by
  rcases h with h | h
  · exact silence_bytes_length_8 c h
  · exact silence_bytes_length_16 c h

/-- **C4 counterexample.** With sample_rate = 999, silence_ms = 1, 8-bit mono,
the code's silence buffer (server.py line 292 uses `int(...)`, i.e. floor) is
empty, while the spec's `round(sample_rate * silence_ms / 1000) *
bytes_per_sample` is 1: the claimed equality fails. -/
theorem C4_counterexample :
    ¬ ((Config.silence_bytes ⟨999, 8, 1, 20, 1⟩).length =
       spec_silence_samples_round ⟨999, 8, 1, 20, 1⟩ *
         Config.bytes_per_sample ⟨999, 8, 1, 20, 1⟩) := by
  decide

/-- **C4 (amended).** For every positive sample_rate and silence_ms, with a
supported bit depth, the silence buffer's length in bytes equals exactly
floor(sample_rate * silence_ms / 1000) (truncating integer conversion, as the
code's `int(...)`) multiplied by bytes_per_sample = (bits/8) * channels. -/
theorem C4_silence_length (c : Config) (hb : c.bits = 8 ∨ c.bits = 16)
    (hr : 0 < c.sample_rate) (hs : 0 < c.silence_ms) :
    c.silence_bytes.length =
      (c.sample_rate * c.silence_ms / 1000) * c.bytes_per_sample :=
  silence_bytes_length c hb

/-- Witness for C4_silence_length at a concrete configuration. -/
theorem C4_silence_length_witness :
    ((8 : Nat) = 8 ∨ (8 : Nat) = 16) ∧ 0 < 16000 ∧ 0 < 10 ∧
    (Config.silence_bytes ⟨16000, 8, 1, 20, 10⟩).length =
      (16000 * 10 / 1000) * Config.bytes_per_sample ⟨16000, 8, 1, 20, 10⟩ :=
  ⟨Or.inl rfl, by decide, by decide,
    C4_silence_length ⟨16000, 8, 1, 20, 10⟩ (Or.inl rfl) (by decide) (by decide)⟩

lemma mem_repBytes {b n : Nat} {l : List Nat} (h : b ∈ repBytes n l) : b ∈ l := by
  rw [repBytes] at h
  rcases List.mem_flatten.mp h with ⟨m, hm, hb⟩
  have := List.eq_of_mem_replicate hm
  subst this
  exact hb

lemma silence_bytes_all_128 (c : Config) (h : c.bits = 8) :
    ∀ b ∈ c.silence_bytes, b = DEFAULT_U8_SILENCE_BYTE_VALUE := by
  intro b hb
  rw [Config.silence_bytes, if_pos h] at hb
  exact List.eq_of_mem_replicate hb

lemma silence_bytes_all_zero_16 (c : Config) (h : c.bits = 16) :
    ∀ b ∈ c.silence_bytes, b = 0 := by
  intro b hb
  have h8 : c.bits ≠ 8 := by omega
  rw [Config.silence_bytes, if_neg h8, if_pos h, pack_s16_le_zero] at hb
  have hb2 := mem_repBytes (mem_repBytes hb)
  simpa using hb2

/-- **C5 (confirmed).** Every byte of the silence buffer equals 128 when
bits_per_sample is 8; when bits_per_sample is 16 every consecutive 2-byte
little-endian group decodes (as client.py lines 88-91 does) to the signed
value 0. -/
theorem C5_silence_content (c : Config) :
    (c.bits = 8 → ∀ b ∈ c.silence_bytes, b = DEFAULT_U8_SILENCE_BYTE_VALUE) ∧
    (c.bits = 16 → ∀ i : Nat, ∀ hi : 2 * i + 1 < c.silence_bytes.length,
      decode_s16_le (c.silence_bytes.get ⟨2 * i, by omega⟩)
        (c.silence_bytes.get ⟨2 * i + 1, hi⟩) = 0) := by
  constructor
  · exact silence_bytes_all_128 c
  · intro h i hi
    have z0 := silence_bytes_all_zero_16 c h _
      (List.get_mem c.silence_bytes (2 * i) (by omega))
    have z1 := silence_bytes_all_zero_16 c h _
      (List.get_mem c.silence_bytes (2 * i + 1) hi)
    rw [z0, z1]
    decide

/-- Witness for C5_silence_content: the 8-bit case at 16000 Hz mono, and the
16-bit case at 100 Hz mono (first 2-byte group of the silence buffer). -/
theorem C5_silence_content_witness :
    (Config.silence_bytes ⟨100, 8, 1, 20, 10⟩).get ⟨0, by decide⟩ =
      DEFAULT_U8_SILENCE_BYTE_VALUE ∧
    decode_s16_le ((Config.silence_bytes ⟨100, 16, 1, 20, 10⟩).get ⟨0, by decide⟩)
      ((Config.silence_bytes ⟨100, 16, 1, 20, 10⟩).get ⟨1, by decide⟩) = 0 :=
  ⟨(C5_silence_content ⟨100, 8, 1, 20, 10⟩).1 rfl _
      (List.get_mem _ 0 (by decide)),
   (C5_silence_content ⟨100, 16, 1, 20, 10⟩).2 rfl 0 (by decide)⟩

/-- **C10 (confirmed).** chunk_size_bytes and the silence-buffer length are
exact multiples of bytes_per_sample, and every chunk start offset
i * chunk_size_bytes is frame-aligned. -/
theorem C10_frame_alignment (c : Config) (hb : c.bits = 8 ∨ c.bits = 16)
    (hc : c.channels = 1 ∨ c.channels = 2) (hr : 0 < c.sample_rate)
    (hcm : 0 < c.chunk_ms) (hsm : 0 < c.silence_ms) :
    c.bytes_per_sample ∣ c.chunk_size_bytes ∧
    c.bytes_per_sample ∣ c.silence_bytes.length ∧
    ∀ i : Nat, c.bytes_per_sample ∣ i * c.chunk_size_bytes := by
  refine ⟨dvd_mul_left _ _, ?_, ?_⟩
  · rw [silence_bytes_length c hb]
    exact dvd_mul_left _ _
  · intro i
    exact dvd_mul_of_dvd_right (dvd_mul_left _ _) i

/-- Witness for C10_frame_alignment at 16-bit stereo 16000 Hz (and offset 3). -/
theorem C10_frame_alignment_witness :
    Config.bytes_per_sample ⟨16000, 16, 2, 20, 10⟩ ∣
      Config.chunk_size_bytes ⟨16000, 16, 2, 20, 10⟩ ∧
    Config.bytes_per_sample ⟨16000, 16, 2, 20, 10⟩ ∣
      (Config.silence_bytes ⟨16000, 16, 2, 20, 10⟩).length ∧
    Config.bytes_per_sample ⟨16000, 16, 2, 20, 10⟩ ∣
      3 * Config.chunk_size_bytes ⟨16000, 16, 2, 20, 10⟩ := by
  have h := C10_frame_alignment ⟨16000, 16, 2, 20, 10⟩ (Or.inr rfl) (Or.inr rfl)
    (by decide) (by decide) (by decide)
  exact ⟨h.1, h.2.1, h.2.2 3⟩

/-! ## Chunked send loop (server.py, `handle_client`, lines 104-118)

`for i in range(0, len(audio_data), chunk_size_bytes): chunk =
audio_data[i : i + chunk_size_bytes]` — the successive slices the loop
transmits.  `range` with step `chunk_size_bytes` requires a positive step
(Python raises `ValueError` on step 0), matching the `n = 0` guard. -/

def chunksOf (n : Nat) (data : List Nat) : List (List Nat) :=
  if h : n = 0 ∨ data = [] then []
  else
    data.take n :: chunksOf n (data.drop n)
termination_by data.length
decreasing_by
  push_neg at h
  have h1 : data.length ≠ 0 := by
    intro h0
    exact h.2 (List.length_eq_zero.mp h0)
  simp only [List.length_drop]
  omega

lemma chunksOf_nil (n : Nat) : chunksOf n [] = [] := by
  rw [chunksOf, dif_pos (Or.inr rfl)]

lemma chunksOf_pos (n : Nat) (data : List Nat) (hn : n ≠ 0) (hd : data ≠ []) :
    chunksOf n data = data.take n :: chunksOf n (data.drop n) := by
  rw [chunksOf, dif_neg]
  push_neg
  exact ⟨hn, hd⟩

lemma chunksOf_flatten (n : Nat) (data : List Nat) :
    0 < n → (chunksOf n data).flatten = data := by
  induction data using chunksOf.induct n with
  | case1 data h =>
    intro hn
    rcases h with h | h
    · omega
    · rw [h, chunksOf_nil]
      rfl
  | case2 data h ih =>
    intro hn
    push_neg at h
    rw [chunksOf_pos n data h.1 h.2, List.flatten_cons, ih hn,
      List.take_append_drop]

lemma chunksOf_mem_length (n : Nat) (data : List Nat) (hn : 0 < n) :
    ∀ c ∈ chunksOf n data, c.length ≤ n ∧ 0 < c.length := by
  induction data using chunksOf.induct n with
  | case1 data h =>
    rcases h with h | h
    · omega
    · rw [h, chunksOf_nil]
      intro c hc
      exact absurd hc (List.not_mem_nil c)
  | case2 data h ih =>
    push_neg at h
    rw [chunksOf_pos n data h.1 h.2]
    intro c hc
    rcases List.mem_cons.mp hc with hc | hc
    · subst hc
      constructor
      · exact List.length_take_le n data
      · have : data.length ≠ 0 := fun h0 => h.2 (List.length_eq_zero.mp h0)
        simp [List.length_take]
        omega
    · exact ih c hc

lemma chunksOf_dropLast_length (n : Nat) (data : List Nat) (hn : 0 < n) :
    ∀ c ∈ (chunksOf n data).dropLast, c.length = n := by
  induction data using chunksOf.induct n with
  | case1 data h =>
    rcases h with h | h
    · omega
    · rw [h, chunksOf_nil]
      intro c hc
      exact absurd hc (List.not_mem_nil c)
  | case2 data h ih =>
    push_neg at h
    rw [chunksOf_pos n data h.1 h.2]
    intro c hc
    by_cases hrest : data.drop n = []
    · rw [hrest, chunksOf_nil] at hc
      exact absurd hc (List.not_mem_nil c)
    · have hne : chunksOf n (data.drop n) ≠ [] := by
        rw [chunksOf_pos n (data.drop n) h.1 hrest]
        exact List.cons_ne_nil _ _
      rcases List.exists_cons_of_ne_nil hne with ⟨y, ys, hy⟩
      rw [hy, List.dropLast_cons₂] at hc
      rcases List.mem_cons.mp hc with hc | hc
      · subst hc
        have hlen : n < data.length := by
          have : data.length - n ≠ 0 := by
            intro h0
            exact hrest (List.eq_nil_of_length_eq_zero (by simpa using h0))
          omega
        simp [List.length_take]
        omega
      · rw [← hy] at hc
        exact ih c hc

/-- **C2 (confirmed).** The pacing send loop splits a non-empty buffer into
successive chunks of exactly chunk_size_bytes each (every chunk before the
last), the last chunk is non-empty and at most chunk_size_bytes, the
concatenation of the transmitted chunks is the input buffer, and the total
number of transmitted bytes equals the buffer length exactly. -/
theorem C2_chunking (data : List Nat) (n : Nat) (hn : 0 < n) (hd : data ≠ []) :
    (∀ c ∈ (chunksOf n data).dropLast, c.length = n) ∧
    (∀ c ∈ chunksOf n data, c.length ≤ n ∧ 0 < c.length) ∧
    (chunksOf n data).flatten = data ∧
    ((chunksOf n data).map List.length).sum = data.length := by
  refine ⟨chunksOf_dropLast_length n data hn, chunksOf_mem_length n data hn,
    chunksOf_flatten n data hn, ?_⟩
  rw [← List.length_flatten, chunksOf_flatten n data hn]

/-- Witness for C2_chunking: a 5-byte buffer in chunks of 2. -/
theorem C2_chunking_witness :
    (∀ c ∈ (chunksOf 2 [10, 11, 12, 13, 14]).dropLast, c.length = 2) ∧
    (∀ c ∈ chunksOf 2 [10, 11, 12, 13, 14], c.length ≤ 2 ∧ 0 < c.length) ∧
    (chunksOf 2 [10, 11, 12, 13, 14]).flatten = [10, 11, 12, 13, 14] ∧
    ((chunksOf 2 [10, 11, 12, 13, 14]).map List.length).sum =
      ([10, 11, 12, 13, 14] : List Nat).length :=
  C2_chunking [10, 11, 12, 13, 14] 2 (by decide) (by decide)

/-! ## Pacing computation (server.py, `handle_client`, lines 122-127)

`elapsed_time_file = time.monotonic() - start_time`,
`expected_time_file = bytes_sent_total / bytes_per_sec`,
`sleep_time = expected_time_file - elapsed_time_file`,
`if sleep_time > 0: time.sleep(sleep_time)`.

The measured elapsed time after the i-th send is abstracted as an arbitrary
function `elapsed : Nat → ℚ` of the chunk index. -/

def expected_time_file (bytes_sent_total bytes_per_sec : ℚ) : ℚ :=
  bytes_sent_total / bytes_per_sec

def sleep_time (bytes_sent_total bytes_per_sec elapsed_time_file : ℚ) : ℚ :=
  expected_time_file bytes_sent_total bytes_per_sec - elapsed_time_file

/-- The duration actually slept after a chunk: the code sleeps `sleep_time`
when it is positive and otherwise proceeds immediately (sleeps 0). -/
def pace_sleep (bytes_sent_total bytes_per_sec elapsed_time_file : ℚ) : ℚ :=
  if sleep_time bytes_sent_total bytes_per_sec elapsed_time_file > 0 then
    sleep_time bytes_sent_total bytes_per_sec elapsed_time_file
  else 0

/-- The chunked send loop of lines 111-127 with its pacing: pairs every
transmitted chunk with the duration slept after it.  `i` is the chunk index,
`sent` the running `bytes_sent_total`. -/
def pace_loop (bps : ℚ) (elapsed : Nat → ℚ) :
    List (List Nat) → Nat → ℚ → List (List Nat × ℚ)
  | [], _, _ => []
  | c :: cs, i, sent =>
    (c, pace_sleep (sent + (c.length : ℚ)) bps (elapsed i)) ::
      pace_loop bps elapsed cs (i + 1) (sent + (c.length : ℚ))

/-- `bytes_sent_total` after the first k chunks. -/
def bytesSentUpTo (cs : List (List Nat)) (k : Nat) : Nat :=
  ((cs.take k).map List.length).sum

lemma pace_loop_length (bps : ℚ) (el : Nat → ℚ) :
    ∀ (cs : List (List Nat)) (i0 : Nat) (sent : ℚ),
      (pace_loop bps el cs i0 sent).length = cs.length := by
  intro cs
  induction cs with
  | nil => intro i0 sent; rfl
  | cons c cs ih =>
    intro i0 sent
    simp [pace_loop, ih]

lemma pace_loop_map_fst (bps : ℚ) (el : Nat → ℚ) :
    ∀ (cs : List (List Nat)) (i0 : Nat) (sent : ℚ),
      (pace_loop bps el cs i0 sent).map Prod.fst = cs := by
  intro cs
  induction cs with
  | nil => intro i0 sent; rfl
  | cons c cs ih =>
    intro i0 sent
    simp [pace_loop, ih]

lemma pace_loop_get_snd (bps : ℚ) (el : Nat → ℚ) :
    ∀ (cs : List (List Nat)) (i0 : Nat) (sent : ℚ) (j : Nat)
      (hj : j < (pace_loop bps el cs i0 sent).length),
      ((pace_loop bps el cs i0 sent).get ⟨j, hj⟩).2 =
        pace_sleep (sent + (bytesSentUpTo cs (j + 1) : ℚ)) bps (el (i0 + j)) := by
  intro cs
  induction cs with
  | nil =>
    intro i0 sent j hj
    simp [pace_loop] at hj
  | cons c cs ih =>
    intro i0 sent j hj
    cases j with
    | zero =>
      simp [pace_loop, bytesSentUpTo]
    | succ k =>
      have hj' : k < (pace_loop bps el cs (i0 + 1) (sent + (c.length : ℚ))).length := by
        have := hj
        simp [pace_loop] at this
        simpa [pace_loop_length] using this
      have hrec := ih (i0 + 1) (sent + (c.length : ℚ)) k hj'
      have hstep : ((pace_loop bps el (c :: cs) i0 sent).get ⟨k + 1, hj⟩).2 =
          ((pace_loop bps el cs (i0 + 1) (sent + (c.length : ℚ))).get ⟨k, hj'⟩).2 := rfl
      rw [hstep, hrec]
      have hbytes : bytesSentUpTo (c :: cs) (k + 1 + 1) =
          c.length + bytesSentUpTo cs (k + 1) := by
        simp [bytesSentUpTo]
      rw [hbytes]
      have harg : sent + (c.length : ℚ) + (bytesSentUpTo cs (k + 1) : ℚ) =
          sent + ((c.length + bytesSentUpTo cs (k + 1) : Nat) : ℚ) := by
        push_cast
        ring
      rw [← harg]
      have hidx : i0 + 1 + k = i0 + (k + 1) := by omega
      rw [hidx]

/-- **C3 (confirmed).** After transmitting each chunk, the pacer computes
expected elapsed time as bytes sent so far divided by bytes_per_sec and the
actual elapsed time; if expected exceeds actual it sleeps exactly the
difference, otherwise it sleeps nothing — and in either case it proceeds to
the next chunk: every chunk is transmitted in order, none dropped. -/
theorem C3_pacing (chunks : List (List Nat)) (bps : ℚ) (elapsed : Nat → ℚ)
    (hbps : 0 < bps) :
    (pace_loop bps elapsed chunks 0 0).map Prod.fst = chunks ∧
    ∀ i : Nat, ∀ hi : i < (pace_loop bps elapsed chunks 0 0).length,
      ((pace_loop bps elapsed chunks 0 0).get ⟨i, hi⟩).2 =
        if (bytesSentUpTo chunks (i + 1) : ℚ) / bps > elapsed i then
          (bytesSentUpTo chunks (i + 1) : ℚ) / bps - elapsed i
        else 0 := by
  refine ⟨pace_loop_map_fst bps elapsed chunks 0 0, ?_⟩
  intro i hi
  have h := pace_loop_get_snd bps elapsed chunks 0 0 i hi
  rw [h, pace_sleep, sleep_time, expected_time_file]
  rw [zero_add, Nat.zero_add]
  by_cases hgt : (bytesSentUpTo chunks (i + 1) : ℚ) / bps > elapsed i
  · rw [if_pos (by rw [gt_iff_lt, sub_pos]; exact hgt), if_pos hgt]
  · rw [if_neg (by rw [gt_iff_lt, sub_pos]; exact hgt), if_neg hgt]

/-- A concrete elapsed-time observation: the measured elapsed time is always
zero (an infinitely fast transmit). -/
def elapsedZero : Nat → ℚ := fun _ => 0

/-- Witness for C3_pacing on two chunks at 2 bytes/sec with zero measured
elapsed time. -/
theorem C3_pacing_witness :
    (0 : ℚ) < 2 ∧
    (pace_loop 2 elapsedZero [[1, 2], [3]] 0 0).map Prod.fst = [[1, 2], [3]] ∧
    ((pace_loop 2 elapsedZero [[1, 2], [3]] 0 0).get ⟨0, by decide⟩).2 =
      if (bytesSentUpTo [[1, 2], [3]] (0 + 1) : ℚ) / 2 > elapsedZero 0 then
        (bytesSentUpTo [[1, 2], [3]] (0 + 1) : ℚ) / 2 - elapsedZero 0
      else 0 :=
  ⟨by norm_num,
   (C3_pacing [[1, 2], [3]] 2 elapsedZero (by norm_num)).1,
   (C3_pacing [[1, 2], [3]] 2 elapsedZero (by norm_num)).2 0 (by decide)⟩

/-! ## WAV reader (server.py, `read_wav_data`, lines 34-73)

The outcome of `wave.open` on a path is modelled explicitly: a readable
container with its declared header fields and frame payload, a `wave.Error`
(malformed container), or `FileNotFoundError`.  The function's observable
behaviour is its return value (what `handle_client` sees) plus the log
message it emits. -/

inductive WavOpen where
  | ok (rate sampwidth_bytes nchannels : Nat) (frames : List Nat)
  | waveError
  | fileNotFound
deriving Repr, DecidableEq

inductive ReadWavLog where
  | skipRate (got expected : Nat)
  | skipBits (got expected : Nat)
  | skipChannels (got expected : Nat)
  | readOk (nbytes : Nat)
  | errWav
  | errNotFound
deriving Repr, DecidableEq

/-- server.py lines 34-73: validate the header against the expected format,
returning `None` (and logging) on any mismatch or error, the frame payload
otherwise. -/
def read_wav_data (f : WavOpen) (expected_rate expected_bits expected_channels : Nat) :
    Option (List Nat) × ReadWavLog :=
  match f with
  | WavOpen.waveError => (none, ReadWavLog.errWav)
  | WavOpen.fileNotFound => (none, ReadWavLog.errNotFound)
  | WavOpen.ok rate sampwidth_bytes nchannels frames =>
    if rate ≠ expected_rate then
      (none, ReadWavLog.skipRate rate expected_rate)
    else if sampwidth_bytes * 8 ≠ expected_bits then
      (none, ReadWavLog.skipBits (sampwidth_bytes * 8) expected_bits)
    else if nchannels ≠ expected_channels then
      (none, ReadWavLog.skipChannels nchannels expected_channels)
    else
      (some frames, ReadWavLog.readOk frames.length)

/-- server.py lines 88-101: one pass of `handle_client` over the shuffled
file list — a file whose read returns `None` is skipped (`continue`), any
other is streamed; the session moves on to the next file either way. -/
def streamedBuffers (files : List WavOpen) (er eb ec : Nat) : List (List Nat) :=
  match files with
  | [] => []
  | f :: fs =>
    match (read_wav_data f er eb ec).1 with
    | none => streamedBuffers fs er eb ec
    | some data => data :: streamedBuffers fs er eb ec

/-- **C6 counterexample.** The value `handle_client` receives is `None` for a
sample-rate mismatch and `None` for a missing file alike: the claimed
caller-distinguishable difference between a ValidationError and an I/O error
does not exist in the return value. -/
theorem C6_counterexample :
    (read_wav_data (WavOpen.ok 8000 1 1 [5]) 16000 8 1).1 =
      (read_wav_data WavOpen.fileNotFound 16000 8 1).1 ∧
    (read_wav_data (WavOpen.ok 8000 1 1 [5]) 16000 8 1).1 = none := by
  decide

/-- **C6 (amended).** On a header mismatch the reader returns `None` without
raising, logging a warning that identifies the mismatched field; on
file-not-found or malformed-container errors it also returns `None` (logging
an error) — the two classes are told apart only in the log, not by the
caller; in every `None` case the caller skips the file and the session
continues with the remaining files. -/
theorem C6_wav_reader (er eb ec rate sw nch : Nat) (frames : List Nat) :
    (rate ≠ er →
      read_wav_data (WavOpen.ok rate sw nch frames) er eb ec =
        (none, ReadWavLog.skipRate rate er)) ∧
    (rate = er → sw * 8 ≠ eb →
      read_wav_data (WavOpen.ok rate sw nch frames) er eb ec =
        (none, ReadWavLog.skipBits (sw * 8) eb)) ∧
    (rate = er → sw * 8 = eb → nch ≠ ec →
      read_wav_data (WavOpen.ok rate sw nch frames) er eb ec =
        (none, ReadWavLog.skipChannels nch ec)) ∧
    read_wav_data WavOpen.waveError er eb ec = (none, ReadWavLog.errWav) ∧
    read_wav_data WavOpen.fileNotFound er eb ec = (none, ReadWavLog.errNotFound) ∧
    (rate = er → sw * 8 = eb → nch = ec →
      read_wav_data (WavOpen.ok rate sw nch frames) er eb ec =
        (some frames, ReadWavLog.readOk frames.length)) ∧
    (∀ f : WavOpen, ∀ fs : List WavOpen, (read_wav_data f er eb ec).1 = none →
      streamedBuffers (f :: fs) er eb ec = streamedBuffers fs er eb ec) := by
  refine ⟨?_, ?_, ?_, rfl, rfl, ?_, ?_⟩
  · intro h
    simp [read_wav_data, h]
  · intro h1 h2
    simp [read_wav_data, h1, h2]
  · intro h1 h2 h3
    simp [read_wav_data, h1, h2, h3]
  · intro h1 h2 h3
    simp [read_wav_data, h1, h2, h3]
  · intro f fs h
    rw [streamedBuffers, h]

/-- Witness for C6_wav_reader: a rate-mismatching file, a missing file, a
fully matching file, and the skip-and-continue behaviour, all concrete. -/
theorem C6_wav_reader_witness :
    read_wav_data (WavOpen.ok 8000 1 1 [5]) 16000 8 1 =
      (none, ReadWavLog.skipRate 8000 16000) ∧
    read_wav_data WavOpen.fileNotFound 16000 8 1 =
      (none, ReadWavLog.errNotFound) ∧
    read_wav_data (WavOpen.ok 16000 1 1 [5]) 16000 8 1 =
      (some [5], ReadWavLog.readOk 1) ∧
    streamedBuffers [WavOpen.fileNotFound, WavOpen.ok 16000 1 1 [5]] 16000 8 1 =
      streamedBuffers [WavOpen.ok 16000 1 1 [5]] 16000 8 1 :=
  ⟨(C6_wav_reader 16000 8 1 8000 1 1 [5]).1 (by decide),
   (C6_wav_reader 16000 8 1 8000 1 1 [5]).2.2.2.2.1,
   (C6_wav_reader 16000 8 1 16000 1 1 [5]).2.2.2.2.2.1 rfl rfl rfl,
   (C6_wav_reader 16000 8 1 8000 1 1 [5]).2.2.2.2.2.2
     WavOpen.fileNotFound [WavOpen.ok 16000 1 1 [5]] rfl⟩

/-! ## Server startup (server.py, `start_server` lines 187-256 and
`__main__` lines 259-314)

The filesystem and socket environment is abstracted to the outcomes the code
branches on.  Every failure path in `start_server` logs and `return`s
(lines 200, 204) or swallows the `OSError` from bind/listen (lines 251-252)
and falls through; `__main__` calls `start_server(args)` as its last
statement, so the interpreter then exits with status 0.  The only `exit(1)`
is the unsupported-bit-depth guard (line 309), unreachable under the
argparse `choices=[8, 16]`. -/

structure Env where
  dir_exists : Bool
  dir_creatable : Bool
  dir_is_dir : Bool
  bind_ok : Bool
deriving Repr, DecidableEq

inductive StartResult where
  | failedDirCreate
  | notADirectory
  | failedBindListen
  | serving
deriving Repr, DecidableEq

/-- server.py lines 187-256: how `start_server` leaves its caller.  Every
non-`serving` result corresponds to a logged error followed by a plain
`return` (the bind/listen `OSError` is caught at line 251 and the function
falls off its end). -/
def start_server (e : Env) : StartResult :=
  if e.dir_exists = false ∧ e.dir_creatable = false then
    StartResult.failedDirCreate
  else if e.dir_is_dir = false then
    StartResult.notADirectory
  else if e.bind_ok = false then
    StartResult.failedBindListen
  else
    StartResult.serving

inductive MainOutcome where
  | exited (code : Nat)
  | serving
deriving Repr, DecidableEq

/-- server.py `__main__`: `exit(1)` only for a bit depth outside {8, 16};
otherwise `start_server(args)` runs, and if it returns the script ends
normally — process exit status 0. -/
def server_main (bits : Nat) (e : Env) : MainOutcome :=
  if bits ≠ 8 ∧ bits ≠ 16 then
    MainOutcome.exited 1
  else
    match start_server e with
    | StartResult.serving => MainOutcome.serving
    | _ => MainOutcome.exited 0

/-- **C7 counterexample.** With the audio directory fine but bind/listen
failing, `start_server` reports the bind failure yet the process exits with
status 0, not the claimed non-zero status. -/
theorem C7_counterexample :
    start_server ⟨true, true, true, false⟩ = StartResult.failedBindListen ∧
    server_main 8 ⟨true, true, true, false⟩ = MainOutcome.exited 0 ∧
    (0 : Nat) ≠ 1 := by
  decide

/-- **C7 (amended).** A missing, uncreatable audio directory or a bind/listen
failure is reported as a clear error and stops the server from serving
(`start_server` returns); the process then terminates, but with exit status
0 — no startup error reaches the process exit status. -/
theorem C7_startup_errors (bits : Nat) (e : Env) (hb : bits = 8 ∨ bits = 16) :
    (e.dir_exists = false → e.dir_creatable = false →
      start_server e = StartResult.failedDirCreate) ∧
    ((e.dir_exists = true ∨ e.dir_creatable = true) → e.dir_is_dir = true →
      e.bind_ok = false → start_server e = StartResult.failedBindListen) ∧
    (start_server e ≠ StartResult.serving →
      server_main bits e = MainOutcome.exited 0) ∧
    (start_server e = StartResult.serving →
      server_main bits e = MainOutcome.serving) := by
  rcases e with ⟨de, dc, di, bo⟩
  rcases hb with rfl | rfl <;>
    cases de <;> cases dc <;> cases di <;> cases bo <;> decide

/-- Witness for C7_startup_errors: an uncreatable missing directory, and a
bind failure that still exits with status 0. -/
theorem C7_startup_errors_witness :
    start_server ⟨false, false, true, true⟩ = StartResult.failedDirCreate ∧
    start_server ⟨true, true, true, false⟩ = StartResult.failedBindListen ∧
    server_main 8 ⟨true, true, true, false⟩ = MainOutcome.exited 0 :=
  ⟨(C7_startup_errors 8 ⟨false, false, true, true⟩ (Or.inl rfl)).1 rfl rfl,
   (C7_startup_errors 8 ⟨true, true, true, false⟩ (Or.inl rfl)).2.1
     (Or.inl rfl) rfl rfl,
   (C7_startup_errors 8 ⟨true, true, true, false⟩ (Or.inl rfl)).2.2.1
     (by decide)⟩

/-! ## Microphone broadcaster (microphone-server.py, `AudioTCPServer`)

The accept loop (lines 59-75) and the capture/broadcast loop (lines 91-110)
interact only through the mutex-guarded `self.clients` list.  We model the
observable protocol as a trace machine: the state holds the client registry,
the chronological list of successfully delivered (client, payload) messages,
and the chronological list of closed clients.  One `MicAct.broadcast` step is
one body of the capture loop's `with self.lock:` block — one critical
section; one `MicAct.accept` step is one accepted connection (lines 62-70),
whose header send precedes the registry append. -/

structure MicCfg where
  sample_rate : Nat
  sample_width : Nat
  chunk_size : Nat
deriving Repr, DecidableEq

/-- Python `struct.pack('!I', n)`: one unsigned 32-bit big-endian field. -/
def packU32BE (n : Nat) : List Nat :=
  [n / 2 ^ 24 % 256, n / 2 ^ 16 % 256, n / 2 ^ 8 % 256, n % 256]

/-- microphone-server.py line 66: `struct.pack('!III', self.sample_rate,
self.sample_width, self.chunk_size)`. -/
def micHeader (cfg : MicCfg) : List Nat :=
  packU32BE cfg.sample_rate ++ packU32BE cfg.sample_width ++
    packU32BE cfg.chunk_size

/-- Python `struct.unpack('!I', b)` on a 4-byte group (the client side,
microphone-server.py line 150). -/
def unpackU32BE (b : List Nat) : Nat :=
  match b with
  | [b0, b1, b2, b3] => ((b0 * 256 + b1) * 256 + b2) * 256 + b3
  | _ => 0

structure MicState where
  clients : List Nat
  sent : List (Nat × List Nat)
  closed : List Nat
deriving Repr, DecidableEq

/-- The messages successfully delivered to client `c`, oldest first. -/
def sentTo (st : MicState) (c : Nat) : List (Nat × List Nat) :=
  st.sent.filter (fun e => e.1 == c)

inductive MicAct where
  | accept (c : Nat) (header_ok : Bool)
  | broadcast (data : List Nat) (fails : List Nat)
deriving Repr, DecidableEq

def micInit : MicState := ⟨[], [], []⟩

/-- One step of the server:
* `accept c ok` (lines 62-70): the 12-byte header is sent to the new client;
  only if that send succeeds is the client appended to the registry (a send
  failure raises before the `with self.lock:` append).
* `broadcast data fails` (lines 97-110, one critical section): every
  registered client is written to; `fails` is the set whose `send` raised.
  Failing clients get no delivery, are collected in `disconnected_clients`,
  then removed from the registry (`list.remove`, first occurrence) and
  closed, all before the lock is released. -/
def micStep (cfg : MicCfg) (st : MicState) (a : MicAct) : MicState :=
  match a with
  | MicAct.accept c ok =>
    if ok then
      { clients := st.clients ++ [c]
        sent := st.sent ++ [(c, micHeader cfg)]
        closed := st.closed }
    else st
  | MicAct.broadcast data fails =>
    let delivered := st.clients.filter (fun c => !(fails.contains c))
    let disconnected := st.clients.filter (fun c => fails.contains c)
    { clients := List.foldl List.erase st.clients disconnected
      sent := st.sent ++ delivered.map (fun c => (c, data))
      closed := st.closed ++ disconnected }

def micRun (cfg : MicCfg) (st : MicState) (acts : List MicAct) : MicState :=
  acts.foldl (micStep cfg) st

lemma micRun_cons (cfg : MicCfg) (st : MicState) (a : MicAct) (as : List MicAct) :
    micRun cfg st (a :: as) = micRun cfg (micStep cfg st a) as := rfl

lemma unpack_pack (n : Nat) (h : n < 2 ^ 32) :
    unpackU32BE (packU32BE n) = n := by
  simp only [unpackU32BE, packU32BE]
  omega

lemma micHeader_take4 (cfg : MicCfg) :
    (micHeader cfg).take 4 = packU32BE cfg.sample_rate := rfl

lemma micHeader_drop4_take4 (cfg : MicCfg) :
    ((micHeader cfg).drop 4).take 4 = packU32BE cfg.sample_width := rfl

lemma micHeader_drop8 (cfg : MicCfg) :
    (micHeader cfg).drop 8 = packU32BE cfg.chunk_size := rfl

/-- Every client registered in `st` has the 12-byte header as its first
delivered message, and any client with any delivery at all got the header
first. -/
def HeaderInv (cfg : MicCfg) (st : MicState) : Prop :=
  ∀ c : Nat,
    (c ∈ st.clients → (sentTo st c).head? = some (c, micHeader cfg)) ∧
    (sentTo st c = [] ∨ (sentTo st c).head? = some (c, micHeader cfg))

lemma head?_append_left {α : Type} {l : List α} (t : List α) {x : α}
    (h : l.head? = some x) : (l ++ t).head? = some x := by
  cases l with
  | nil => simp at h
  | cons a l => simpa using h

lemma foldl_erase_subset : ∀ (ys l : List Nat), List.foldl List.erase l ys ⊆ l := by
  intro ys
  induction ys with
  | nil => intro l x hx; exact hx
  | cons y ys ih =>
    intro l x hx
    exact List.erase_subset y l (ih (l.erase y) hx)

lemma headerInv_step (cfg : MicCfg) (st : MicState) (a : MicAct)
    (h : HeaderInv cfg st) : HeaderInv cfg (micStep cfg st a) := by
  rcases a with ⟨c', ok⟩ | ⟨d, fl⟩
  · cases ok with
    | false => simpa [micStep] using h
    | true =>
      intro c
      by_cases hc : c' = c
      · subst hc
        have hfil : sentTo (micStep cfg st (MicAct.accept c' true)) c' =
            sentTo st c' ++ [(c', micHeader cfg)] := by
          simp [micStep, sentTo, List.filter_append]
        constructor
        · intro _
          rw [hfil]
          rcases (h c').2 with h0 | h0
          · rw [h0]; rfl
          · exact head?_append_left _ h0
        · right
          rw [hfil]
          rcases (h c').2 with h0 | h0
          · rw [h0]; rfl
          · exact head?_append_left _ h0
      · have hfil : sentTo (micStep cfg st (MicAct.accept c' true)) c =
            sentTo st c := by
          simp [micStep, sentTo, List.filter_append, List.filter_cons, hc]
        constructor
        · intro hm
          have hm' : c ∈ st.clients := by
            have hm2 : c ∈ st.clients ++ [c'] := by simpa [micStep] using hm
            rcases List.mem_append.mp hm2 with h1 | h1
            · exact h1
            · exact absurd (List.mem_singleton.mp h1).symm hc
          rw [hfil]
          exact (h c).1 hm'
        · rw [hfil]
          exact (h c).2
  · intro c
    by_cases hcm : c ∈ st.clients
    · have hhead : (sentTo st c).head? = some (c, micHeader cfg) := (h c).1 hcm
      have hfil : sentTo (micStep cfg st (MicAct.broadcast d fl)) c =
          sentTo st c ++ ((st.clients.filter (fun x => !(fl.contains x))).map
            (fun x => (x, d))).filter (fun e => e.1 == c) := by
        simp [micStep, sentTo, List.filter_append]
      constructor
      · intro _
        rw [hfil]
        exact head?_append_left _ hhead
      · right
        rw [hfil]
        exact head?_append_left _ hhead
    · have hnil : ((st.clients.filter (fun x => !(fl.contains x))).map
          (fun x => (x, d))).filter (fun e => e.1 == c) = [] := by
        rw [List.filter_eq_nil_iff]
        intro e he
        rcases List.mem_map.mp he with ⟨x, hx, rfl⟩
        have hxm : x ∈ st.clients := List.mem_of_mem_filter hx
        simp only [beq_iff_eq]
        intro hxc
        exact hcm (hxc ▸ hxm)
      have hfil : sentTo (micStep cfg st (MicAct.broadcast d fl)) c =
          sentTo st c := by
        show (st.sent ++ (st.clients.filter (fun x => !(fl.contains x))).map
            (fun x => (x, d))).filter (fun e => e.1 == c) = sentTo st c
        rw [List.filter_append, hnil, List.append_nil]
        rfl
      constructor
      · intro hm
        have : c ∈ st.clients := foldl_erase_subset _ _ hm
        exact absurd this hcm
      · rw [hfil]
        exact (h c).2

lemma headerInv_init (cfg : MicCfg) : HeaderInv cfg micInit := by
  intro c
  constructor
  · intro h
    simp [micInit] at h
  · left
    rfl

lemma headerInv_run (cfg : MicCfg) :
    ∀ (acts : List MicAct) (st : MicState), HeaderInv cfg st →
      HeaderInv cfg (micRun cfg st acts) := by
  intro acts
  induction acts with
  | nil => intro st h; exact h
  | cons a as ih =>
    intro st h
    rw [micRun_cons]
    exact ih _ (headerInv_step cfg st a h)

/-- **C8 (confirmed).** The header sent to every accepted client is exactly
12 bytes — three big-endian unsigned 32-bit fields decoding to sample_rate,
sample_width and chunk_size in that order — the header send precedes the
registry append, and in every reachable server state the first message ever
delivered to any client (registered or not) is that header, so no audio
bytes precede it. -/
theorem C8_mic_header (cfg : MicCfg) (hsr : cfg.sample_rate < 2 ^ 32)
    (hsw : cfg.sample_width < 2 ^ 32) (hcs : cfg.chunk_size < 2 ^ 32) :
    (micHeader cfg).length = 12 ∧
    unpackU32BE ((micHeader cfg).take 4) = cfg.sample_rate ∧
    unpackU32BE (((micHeader cfg).drop 4).take 4) = cfg.sample_width ∧
    unpackU32BE ((micHeader cfg).drop 8) = cfg.chunk_size ∧
    ∀ acts : List MicAct, HeaderInv cfg (micRun cfg micInit acts) := by
  refine ⟨rfl, ?_, ?_, ?_, ?_⟩
  · rw [micHeader_take4]
    exact unpack_pack _ hsr
  · rw [micHeader_drop4_take4]
    exact unpack_pack _ hsw
  · rw [micHeader_drop8]
    exact unpack_pack _ hcs
  · intro acts
    exact headerInv_run cfg acts micInit (headerInv_init cfg)

/-- Witness for C8_mic_header at the shipped configuration (44100 Hz, 16-bit,
1024-frame chunks), with one client accepted. -/
theorem C8_mic_header_witness :
    (micHeader ⟨44100, 2, 1024⟩).length = 12 ∧
    unpackU32BE ((micHeader ⟨44100, 2, 1024⟩).take 4) = 44100 ∧
    (sentTo (micRun ⟨44100, 2, 1024⟩ micInit [MicAct.accept 7 true]) 7).head? =
      some (7, micHeader ⟨44100, 2, 1024⟩) := by
  have h := C8_mic_header ⟨44100, 2, 1024⟩ (by norm_num) (by norm_num)
    (by norm_num)
  exact ⟨h.1, h.2.1, (h.2.2.2.2 [MicAct.accept 7 true] 7).1 (by decide)⟩

lemma foldl_erase_cons (x : Nat) :
    ∀ (ys xs : List Nat), x ∉ ys →
      List.foldl List.erase (x :: xs) ys = x :: List.foldl List.erase xs ys := by
  intro ys
  induction ys with
  | nil => intro xs _; rfl
  | cons y ys ih =>
    intro xs hx
    have hxy : ¬(x == y) := by
      simp only [beq_iff_eq]
      intro h
      exact hx (h ▸ List.mem_cons_self y ys)
    have herase : (x :: xs).erase y = x :: xs.erase y :=
      List.erase_cons_tail hxy
    rw [show List.foldl List.erase (x :: xs) (y :: ys) =
        List.foldl List.erase ((x :: xs).erase y) ys from rfl, herase,
      ih (xs.erase y) (fun h => hx (List.mem_cons_of_mem y h))]
    rfl

lemma foldl_erase_filter (p : Nat → Bool) :
    ∀ l : List Nat, l.Nodup →
      List.foldl List.erase l (l.filter p) = l.filter (fun x => !(p x)) := by
  intro l
  induction l with
  | nil => intro _; rfl
  | cons x xs ih =>
    intro hnd
    have hx : x ∉ xs := (List.nodup_cons.mp hnd).1
    have hxs : xs.Nodup := (List.nodup_cons.mp hnd).2
    by_cases hpx : p x = true
    · rw [List.filter_cons_of_pos hpx,
        show List.foldl List.erase (x :: xs) (x :: xs.filter p) =
          List.foldl List.erase ((x :: xs).erase x) (xs.filter p) from rfl,
        List.erase_cons_head x xs, ih hxs,
        List.filter_cons_of_neg (by simp [hpx])]
    · have hpx' : p x = false := by
        revert hpx
        cases p x <;> simp
      have hxf : x ∉ xs.filter p := fun h => hx (List.mem_of_mem_filter h)
      rw [List.filter_cons_of_neg (by simp [hpx']),
        foldl_erase_cons x (xs.filter p) xs hxf, ih hxs,
        List.filter_cons_of_pos (by simp [hpx'])]

lemma micRun_no_send (cfg : MicCfg) (c : Nat) :
    ∀ (acts : List MicAct), (∀ ok : Bool, MicAct.accept c ok ∉ acts) →
      ∀ st : MicState, c ∉ st.clients →
      c ∉ (micRun cfg st acts).clients ∧
      sentTo (micRun cfg st acts) c = sentTo st c := by
  intro acts
  induction acts with
  | nil => intro _ st h; exact ⟨h, rfl⟩
  | cons a as ih =>
    intro hna st hc
    have hna' : ∀ ok : Bool, MicAct.accept c ok ∉ as :=
      fun ok hm => hna ok (List.mem_cons_of_mem a hm)
    rw [micRun_cons]
    rcases a with ⟨c', ok⟩ | ⟨d, fl⟩
    · cases ok with
      | false =>
        have hstep : micStep cfg st (MicAct.accept c' false) = st := rfl
        rw [hstep]
        exact ih hna' st hc
      | true =>
        have hne : c' ≠ c := by
          intro h
          subst h
          exact hna true (List.mem_cons_self _ _)
        have hc2 : c ∉ (micStep cfg st (MicAct.accept c' true)).clients := by
          intro hm
          have hm2 : c ∈ st.clients ++ [c'] := by simpa [micStep] using hm
          rcases List.mem_append.mp hm2 with h1 | h1
          · exact hc h1
          · exact hne (List.mem_singleton.mp h1).symm
        have hsent : sentTo (micStep cfg st (MicAct.accept c' true)) c =
            sentTo st c := by
          show (st.sent ++ [(c', micHeader cfg)]).filter (fun e => e.1 == c) =
            sentTo st c
          rw [List.filter_append,
            show List.filter (fun e => e.1 == c) [(c', micHeader cfg)] = []
              from by simp [hne],
            List.append_nil]
          rfl
        have hwhole := ih hna' _ hc2
        exact ⟨hwhole.1, by rw [hwhole.2, hsent]⟩
    · have hc2 : c ∉ (micStep cfg st (MicAct.broadcast d fl)).clients := by
        intro hm
        exact hc (foldl_erase_subset _ _ hm)
      have hnil : ((st.clients.filter (fun x => !(fl.contains x))).map
          (fun x => (x, d))).filter (fun e => e.1 == c) = [] := by
        rw [List.filter_eq_nil_iff]
        intro e he
        rcases List.mem_map.mp he with ⟨x, hx, rfl⟩
        have hxm : x ∈ st.clients := List.mem_of_mem_filter hx
        simp only [beq_iff_eq]
        intro hxc
        exact hc (hxc ▸ hxm)
      have hsent : sentTo (micStep cfg st (MicAct.broadcast d fl)) c =
          sentTo st c := by
        show (st.sent ++ (st.clients.filter (fun x => !(fl.contains x))).map
            (fun x => (x, d))).filter (fun e => e.1 == c) = sentTo st c
        rw [List.filter_append, hnil, List.append_nil]
        rfl
      have hwhole := ih hna' _ hc2
      exact ⟨hwhole.1, by rw [hwhole.2, hsent]⟩

/-- **C1 (confirmed).** In one broadcast critical section (one lock
acquisition, microphone-server.py lines 97-110): the registry afterwards is
exactly the clients whose send succeeded; every failing client is removed
and appears exactly once more in the close log — in the same step — while
every succeeding client remains and received this chunk; and a client absent
from the registry is never delivered anything in any later step unless it is
freshly accepted. -/
theorem C1_broadcast_prune (cfg : MicCfg) (st : MicState) (data : List Nat)
    (fails : List Nat) (hnd : st.clients.Nodup) :
    (micStep cfg st (MicAct.broadcast data fails)).clients =
      st.clients.filter (fun c => !(fails.contains c)) ∧
    (∀ c ∈ st.clients, c ∈ fails →
      c ∉ (micStep cfg st (MicAct.broadcast data fails)).clients ∧
      (micStep cfg st (MicAct.broadcast data fails)).closed.count c =
        st.closed.count c + 1) ∧
    (∀ c ∈ st.clients, c ∉ fails →
      c ∈ (micStep cfg st (MicAct.broadcast data fails)).clients ∧
      (c, data) ∈ (micStep cfg st (MicAct.broadcast data fails)).sent) ∧
    (∀ c : Nat, c ∉ (micStep cfg st (MicAct.broadcast data fails)).clients →
      ∀ acts : List MicAct, (∀ ok : Bool, MicAct.accept c ok ∉ acts) →
        sentTo (micRun cfg (micStep cfg st (MicAct.broadcast data fails)) acts) c =
          sentTo (micStep cfg st (MicAct.broadcast data fails)) c) := by
  have hcl : (micStep cfg st (MicAct.broadcast data fails)).clients =
      st.clients.filter (fun c => !(fails.contains c)) := by
    show List.foldl List.erase st.clients
        (st.clients.filter (fun c => fails.contains c)) = _
    exact foldl_erase_filter _ st.clients hnd
  refine ⟨hcl, ?_, ?_, ?_⟩
  · intro c hcm hcf
    constructor
    · rw [hcl]
      intro hmem
      rw [List.mem_filter] at hmem
      have h2 := hmem.2
      simp at h2
      exact h2 hcf
    · show (st.closed ++ st.clients.filter (fun x => fails.contains x)).count c =
        st.closed.count c + 1
      rw [List.count_append]
      congr 1
      apply List.count_eq_one_of_mem (List.Nodup.filter _ hnd)
      rw [List.mem_filter]
      exact ⟨hcm, by simpa using hcf⟩
  · intro c hcm hcf
    constructor
    · rw [hcl, List.mem_filter]
      exact ⟨hcm, by simpa using hcf⟩
    · show (c, data) ∈ st.sent ++ (st.clients.filter
        (fun x => !(fails.contains x))).map (fun x => (x, data))
      apply List.mem_append_right
      apply List.mem_map.mpr
      refine ⟨c, ?_, rfl⟩
      rw [List.mem_filter]
      exact ⟨hcm, by simpa using hcf⟩
  · intro c hcm acts hna
    exact (micRun_no_send cfg c acts hna _ hcm).2

/-- Witness for C1_broadcast_prune: clients {1, 2}, client 2 fails the send
of chunk [9]; afterwards a further broadcast of [10] reaches nobody named 2. -/
theorem C1_broadcast_prune_witness :
    (micStep ⟨44100, 2, 1024⟩ ⟨[1, 2], [], []⟩
        (MicAct.broadcast [9] [2])).clients = [1] ∧
    (2 : Nat) ∉ (micStep ⟨44100, 2, 1024⟩ ⟨[1, 2], [], []⟩
        (MicAct.broadcast [9] [2])).clients ∧
    (micStep ⟨44100, 2, 1024⟩ ⟨[1, 2], [], []⟩
        (MicAct.broadcast [9] [2])).closed.count 2 = 1 ∧
    (1 : Nat) ∈ (micStep ⟨44100, 2, 1024⟩ ⟨[1, 2], [], []⟩
        (MicAct.broadcast [9] [2])).clients ∧
    ((1 : Nat), [9]) ∈ (micStep ⟨44100, 2, 1024⟩ ⟨[1, 2], [], []⟩
        (MicAct.broadcast [9] [2])).sent ∧
    sentTo (micRun ⟨44100, 2, 1024⟩ (micStep ⟨44100, 2, 1024⟩ ⟨[1, 2], [], []⟩
        (MicAct.broadcast [9] [2])) [MicAct.broadcast [10] []]) 2 =
      sentTo (micStep ⟨44100, 2, 1024⟩ ⟨[1, 2], [], []⟩
        (MicAct.broadcast [9] [2])) 2 := by
  have h := C1_broadcast_prune ⟨44100, 2, 1024⟩ ⟨[1, 2], [], []⟩ [9] [2]
    (by decide)
  refine ⟨by decide, ?_, ?_, ?_, ?_, ?_⟩
  · exact (h.2.1 2 (by decide) (by decide)).1
  · exact (h.2.1 2 (by decide) (by decide)).2
  · exact (h.2.2.1 1 (by decide) (by decide)).1
  · exact (h.2.2.1 1 (by decide) (by decide)).2
  · refine h.2.2.2 2 ?_ [MicAct.broadcast [10] []] ?_
    · decide
    · intro ok hm
      simp at hm

/-! ## Client player cleanup (client.py, `play_stream`, lines 15-131)

The acquisition order in the source: the PyAudio instance `p` (line 19,
always), the playback stream (line 33, after the bit-depth check), the
output text file (line 49), the socket (line 65, a `with` block).  The exit
paths are the unsupported-bit-depth return (line 30), the `p.open` failure
return (line 44), the connect failure (line 119), and the four loop exits —
orderly stream end (line 76), socket error (line 108), playback-device
I/O error (line 111), user interrupt (line 115).  The `finally` block
(lines 123-131) stops and closes the stream only when `stream` exists and
`stream.is_active()`, then terminates `p`; the `with` closes the socket;
no statement anywhere closes `output_file`. -/

inductive ExitPath where
  | unsupportedBits
  | openFail
  | connectFail
  | orderlyEnd
  | socketErr
  | ioErr
  | keyboardInterrupt
deriving Repr, DecidableEq

structure Resources where
  stream_opened : Bool
  stream_closed : Bool
  p_terminated : Bool
  socket_opened : Bool
  socket_closed : Bool
  file_opened : Bool
  file_closed : Bool
deriving Repr, DecidableEq

/-- Which resources are acquired and released on each exit path of
`play_stream`; `stream_active` is the value `stream.is_active()` reports in
the `finally` block. -/
def play_stream_resources (path : ExitPath) (stream_active : Bool) : Resources :=
  match path with
  | ExitPath.unsupportedBits =>
    { stream_opened := false, stream_closed := false, p_terminated := true
      socket_opened := false, socket_closed := false
      file_opened := false, file_closed := false }
  | ExitPath.openFail =>
    { stream_opened := false, stream_closed := false, p_terminated := true
      socket_opened := false, socket_closed := false
      file_opened := false, file_closed := false }
  | _ =>
    { stream_opened := true, stream_closed := stream_active
      p_terminated := true
      socket_opened := true, socket_closed := true
      file_opened := true, file_closed := false }

/-- **C9 counterexample.** On the orderly-stream-end exit path the output
file `play_stream` opened is still open: the claim that every acquired
resource, the output file included, is released on every exit path fails. -/
theorem C9_counterexample :
    (play_stream_resources ExitPath.orderlyEnd true).file_opened = true ∧
    (play_stream_resources ExitPath.orderlyEnd true).file_closed = false := by
  decide

/-- **C9 (amended).** On every exit path the PyAudio instance is terminated
and an opened socket is closed; the playback stream, when opened, is stopped
and closed provided it still reports active in the cleanup block; the output
file, once opened, is never closed by `play_stream`. -/
theorem C9_resource_cleanup (path : ExitPath) (stream_active : Bool) :
    (play_stream_resources path stream_active).p_terminated = true ∧
    ((play_stream_resources path stream_active).socket_opened = true →
      (play_stream_resources path stream_active).socket_closed = true) ∧
    ((play_stream_resources path stream_active).stream_opened = true →
      stream_active = true →
      (play_stream_resources path stream_active).stream_closed = true) ∧
    ((play_stream_resources path stream_active).file_opened = true →
      (play_stream_resources path stream_active).file_closed = false) := by
  cases path <;> cases stream_active <;> decide

/-- Witness for C9_resource_cleanup on the orderly-end path with an active
stream. -/
theorem C9_resource_cleanup_witness :
    (play_stream_resources ExitPath.orderlyEnd true).p_terminated = true ∧
    (play_stream_resources ExitPath.orderlyEnd true).socket_closed = true ∧
    (play_stream_resources ExitPath.orderlyEnd true).stream_closed = true ∧
    (play_stream_resources ExitPath.orderlyEnd true).file_closed = false := by
  have h := C9_resource_cleanup ExitPath.orderlyEnd true
  exact ⟨h.1, h.2.1 rfl, h.2.2.1 rfl rfl, h.2.2.2 rfl⟩
